import Mathlib

/-!
Verification of the bilby/peyote excerpt.

Shallow embedding of:
  - `src/peyote/likelihood.py` (classes `Likelihood` and `LikelihoodB`);
  - `src/bilby/core/sampler/pymultinest.py` (class `Pymultinest`:
    kwargs translation, periodic boundaries, temporary-directory
    protocol, signal handlers).

Frequency-domain arrays of length `n` are modelled as functions
`Fin n → ℂ` (respectively `Fin n → ℝ`), matching the documented
invariant that all per-detector arrays share the length of the source's
frequency array.  Python dictionaries are modelled as association lists
in insertion order.  Methods that mutate shared state are modelled by
explicit state passing: each translated statement acts on an explicit
state record, and a statement that assigns to no shared attribute leaves
the record unchanged.
-/

namespace Bilby

/-- A complex frequency-series of length `n` (a numpy complex array). -/
abbrev Vec (n : ℕ) := Fin n → ℂ

/-- A real frequency-series of length `n` (a numpy real array). -/
abbrev RVec (n : ℕ) := Fin n → ℝ

/-- `np.sum(h, axis=0)` for a Python list `h` of equal-length arrays:
the element-wise sum.  For the empty list numpy returns the scalar
`0.0`, which then broadcasts to the zero array, matching the empty
pointwise sum here. -/
def npsum {n : ℕ} (h : List (Vec n)) : Vec n :=
  fun i => (h.map (fun a => a i)).sum

/-- `np.vdot(a, b)`: the complex inner product conjugating the first
argument, `Σ conj(a i) * b i`. -/
noncomputable def npvdot {n : ℕ} (a b : Vec n) : ℂ :=
  ∑ i, (starRingEnd ℂ) (a i) * b i

/-- One detector, as used by `peyote.likelihood`.  The geometry methods
`antenna_response` and `time_delay_from_geocenter` are kept abstract as
function-valued fields (their bodies live outside this excerpt); the
data arrays are the attributes the likelihood code reads.
`whitened_data` and `whiten_count` support the `LikelihoodB` variant:
`whiten_count` records how often `whiten_data()` has been applied. -/
structure Interferometer (n : ℕ) where
  data : Vec n
  power_spectral_density_array : RVec n
  amplitude_spectral_density_array : RVec n
  whitened_data : Vec n
  whiten_count : ℕ
  antenna_response : ℝ → ℝ → ℝ → ℝ → String → ℝ
  time_delay_from_geocenter : ℝ → ℝ → ℝ → ℝ

/-- The source/waveform model.  `frequency_domain_strain` is the
polarization mapping the model currently produces: a dictionary from
polarization-mode name to complex array, in insertion order. -/
structure Source (n : ℕ) where
  ra : ℝ
  dec : ℝ
  geocent_time : ℝ
  psi : ℝ
  frequency_array : RVec n
  time_duration : ℝ
  sampling_frequency : ℝ
  frequency_domain_strain : List (String × Vec n)

/-- The shared state visible to a `log_likelihood()` call: the source
model, the interferometer list, and the polarization mapping obtained
from the source model at the start of the call. -/
structure EvalState (n : ℕ) where
  source : Source n
  interferometers : List (Interferometer n)
  waveform_polarizations : List (String × Vec n)

/-- `Likelihood.get_interferometer_signal`: project each polarization
through the antenna response, sum across modes, and apply the
per-frequency-bin time-delay phase
`exp(-1j * 2 * pi * time_shift * frequency_array)`. -/
noncomputable def Likelihood.get_interferometer_signal {n : ℕ} (src : Source n)
    (waveform_polarizations : List (String × Vec n)) (ifo : Interferometer n) : Vec n :=
  let h : List (Vec n) := waveform_polarizations.map (fun mp => fun i =>
    mp.2 i * ((ifo.antenna_response src.ra src.dec src.geocent_time src.psi mp.1 : ℝ) : ℂ))
  let signal := npsum h
  let time_shift := ifo.time_delay_from_geocenter src.ra src.dec src.geocent_time
  fun i => signal i *
    Complex.exp (-Complex.I * 2 * (Real.pi : ℂ) * (time_shift : ℂ) * ((src.frequency_array i : ℝ) : ℂ))

/-- `Likelihood.log_likelihood_interferometer`: the per-detector term
`(- 4. / time_duration * np.vdot(data - signal, (data - signal) / psd)).real`.
No statement writes any shared attribute, so the state is returned
unchanged. -/
noncomputable def Likelihood.log_likelihood_interferometer {n : ℕ}
    (st : EvalState n) (ifo : Interferometer n) : ℝ × EvalState n :=
  let signal_ifo := Likelihood.get_interferometer_signal st.source st.waveform_polarizations ifo
  let log_l : ℂ := (((- 4 / st.source.time_duration : ℝ)) : ℂ) *
    npvdot (fun i => ifo.data i - signal_ifo i)
      (fun i => (ifo.data i - signal_ifo i) / ((ifo.power_spectral_density_array i : ℝ) : ℂ))
  (log_l.re, st)

/-- One iteration of the accumulation loop in `Likelihood.log_likelihood`:
`log_l += self.log_likelihood_interferometer(...)`. -/
noncomputable def Likelihood.stepAdd {n : ℕ}
    (acc : ℝ × EvalState n) (ifo : Interferometer n) : ℝ × EvalState n :=
  let r := Likelihood.log_likelihood_interferometer acc.2 ifo
  (acc.1 + r.1, r.2)

/-- `Likelihood.log_likelihood`, with the final shared state made
explicit: obtain the polarization mapping from the source, then fold the
per-detector terms over the interferometer list. -/
noncomputable def Likelihood.log_likelihood_run {n : ℕ}
    (src : Source n) (ifos : List (Interferometer n)) : ℝ × EvalState n :=
  let waveform_polarizations := src.frequency_domain_strain
  ifos.foldl Likelihood.stepAdd (0, ⟨src, ifos, waveform_polarizations⟩)

/-- `Likelihood.log_likelihood()`: the returned value.  The accumulated
`log_l` is already real (each contribution took `.real`), so the final
`.real` is the identity. -/
noncomputable def Likelihood.log_likelihood {n : ℕ}
    (src : Source n) (ifos : List (Interferometer n)) : ℝ :=
  (Likelihood.log_likelihood_run src ifos).1

/-- Modelled from the spec: `Interferometer.whiten_data()` is not part of
this excerpt (only its call site is); per the spec it applies an
irreversible one-time whitening transform to the detector's stored data.
The transform itself is abstracted as `W`; `whiten_count` records the
number of applications. -/
def Interferometer.whiten_data {n : ℕ} (W : Vec n → Vec n)
    (ifo : Interferometer n) : Interferometer n :=
  { ifo with whitened_data := W ifo.data, whiten_count := ifo.whiten_count + 1 }

/-- `LikelihoodB.__init__`: call the base constructor, then whiten each
interferometer's data once. -/
def LikelihoodB.init {n : ℕ} (W : Vec n → Vec n)
    (ifos : List (Interferometer n)) : List (Interferometer n) :=
  ifos.map (Interferometer.whiten_data W)

/-- The inner mode loop of `LikelihoodB.log_likelihood`:
`waveform_polarizations[mode] *= det_response` for every mode, i.e. the
mapping with every entry multiplied in place by that detector's antenna
response for its own mode. -/
def LikelihoodB.apply_responses {n : ℕ} (src : Source n) (ifo : Interferometer n)
    (waveform_polarizations : List (String × Vec n)) : List (String × Vec n) :=
  waveform_polarizations.map (fun mp => (mp.1, fun i =>
    mp.2 i * ((ifo.antenna_response src.ra src.dec src.geocent_time src.psi mp.1 : ℝ) : ℂ)))

/-- The time-delay factor of `LikelihoodB.log_likelihood`:
`np.exp(-1j * 2 * np.pi * time_shift)` — a single complex scalar, not an
array over frequency bins. -/
noncomputable def LikelihoodB.phase_factor {n : ℕ} (src : Source n)
    (ifo : Interferometer n) : ℂ :=
  Complex.exp (-Complex.I * 2 * (Real.pi : ℂ) *
    ((ifo.time_delay_from_geocenter src.ra src.dec src.geocent_time : ℝ) : ℂ))

/-- The projected signal built by `LikelihoodB.log_likelihood` for one
detector: `np.sum(waveform_polarizations.values(), axis=0)` taken after
the in-place response multiplication, scaled by the scalar phase factor. -/
noncomputable def LikelihoodB.signal_ifo {n : ℕ} (src : Source n) (ifo : Interferometer n)
    (waveform_polarizations : List (String × Vec n)) : Vec n :=
  fun i => npsum ((LikelihoodB.apply_responses src ifo waveform_polarizations).map Prod.snd) i *
    LikelihoodB.phase_factor src ifo

/-- One iteration of the detector loop of `LikelihoodB.log_likelihood`:
mutate the shared polarization mapping in place, build the signal from
the mutated mapping, whiten it by the amplitude spectral density, and
subtract `4. * sampling_frequency * np.real(sum((whitened_data - signal_whitened) ** 2))`. -/
noncomputable def LikelihoodB.step {n : ℕ}
    (acc : ℝ × EvalState n) (ifo : Interferometer n) : ℝ × EvalState n :=
  let st := acc.2
  let wp2 := LikelihoodB.apply_responses st.source ifo st.waveform_polarizations
  let signal_ifo := LikelihoodB.signal_ifo st.source ifo st.waveform_polarizations
  let signal_ifo_whitened := fun i =>
    signal_ifo i / ((ifo.amplitude_spectral_density_array i : ℝ) : ℂ)
  (acc.1 - 4 * st.source.sampling_frequency *
      (∑ i, (ifo.whitened_data i - signal_ifo_whitened i) ^ 2).re,
    { st with waveform_polarizations := wp2 })

/-- `LikelihoodB.log_likelihood`, with the final shared state made
explicit. -/
noncomputable def LikelihoodB.log_likelihood_run {n : ℕ}
    (src : Source n) (ifos : List (Interferometer n)) : ℝ × EvalState n :=
  ifos.foldl LikelihoodB.step (0, ⟨src, ifos, src.frequency_domain_strain⟩)

/-- `LikelihoodB.log_likelihood()`: the returned value. -/
noncomputable def LikelihoodB.log_likelihood {n : ℕ}
    (src : Source n) (ifos : List (Interferometer n)) : ℝ :=
  (LikelihoodB.log_likelihood_run src ifos).1

/-- The product of the antenna responses of the detectors in `l` for a
fixed mode — the cumulative factor by which `LikelihoodB` scales that
mode's array after processing `l`. -/
def LikelihoodB.responseProduct {n : ℕ} (src : Source n)
    (l : List (Interferometer n)) (mode : String) : ℂ :=
  (l.map (fun ifo =>
    ((ifo.antenna_response src.ra src.dec src.geocent_time src.psi mode : ℝ) : ℂ))).prod

/-- The polarization mapping with every entry scaled by the product of
all responses of the detectors in `l` for its mode. -/
def LikelihoodB.scaleDict {n : ℕ} (src : Source n) (l : List (Interferometer n))
    (waveform_polarizations : List (String × Vec n)) : List (String × Vec n) :=
  waveform_polarizations.map (fun mp =>
    (mp.1, fun i => mp.2 i * LikelihoodB.responseProduct src l mp.1))

/-!
Filesystem model for `Pymultinest`'s temporary-directory protocol.

Only two paths participate: the canonical output directory
(`outputfiles_basename`) and the freshly generated temporary path.
Directory contents are abstracted as a value of a type `α` ("bit-for-bit
contents"); the canonical path may hold a real directory or a symbolic
link to the temporary path.  `os.path.exists` and `os.path.isdir` follow
symbolic links; `os.path.islink` does not.
-/

/-- What the canonical output path holds: a real directory with contents
`c`, or a symbolic link to the temporary path. -/
inductive CEntry (α : Type) where
  | dir (c : α)
  | linkToTemp
  deriving DecidableEq

/-- The filesystem restricted to the two paths the protocol touches. -/
structure FS (α : Type) where
  canonical : Option (CEntry α)
  temp : Option α
  deriving DecidableEq

/-- `os.path.exists(outputfiles_basename)`: follows symbolic links, so a
link counts only when its target (the temporary path) exists. -/
def FS.existsCanonical {α : Type} (fs : FS α) : Bool :=
  match fs.canonical with
  | some (CEntry.dir _) => true
  | some CEntry.linkToTemp => fs.temp.isSome
  | none => false

/-- The directory contents readable at the canonical path, following a
symbolic link to the temporary path. -/
def FS.readCanonical {α : Type} (fs : FS α) : Option α :=
  match fs.canonical with
  | some (CEntry.dir c) => some c
  | some CEntry.linkToTemp => fs.temp
  | none => none

/-- `os.path.islink` on the canonical path (with the trailing slash
stripped, as `_move_temporary_directory_to_proper_path` does): true
exactly when the entry itself is a symbolic link. -/
def FS.islinkCanonical {α : Type} (fs : FS α) : Bool :=
  match fs.canonical with
  | some CEntry.linkToTemp => true
  | _ => false

/-- `os.path.isdir` on the canonical path: follows symbolic links. -/
def FS.isdirCanonical {α : Type} (fs : FS α) : Bool :=
  match fs.canonical with
  | some (CEntry.dir _) => true
  | some CEntry.linkToTemp => fs.temp.isSome
  | none => false

/-- The `temporary_outputfiles_basename` property setter: after storing
the path, if the canonical path exists it is copied to the temporary
path (`shutil.copytree`, which fails when the destination already exists
or the source is unreadable — `none`), and the canonical entry is then
removed (`os.unlink` for a link, `shutil.rmtree` otherwise). -/
def set_temporary_outputfiles_basename {α : Type} (fs : FS α) : Option (FS α) :=
  if fs.existsCanonical then
    match fs.readCanonical, fs.temp with
    | some c, none =>
      let fs1 : FS α := { fs with temp := some c }
      if fs1.islinkCanonical then some { fs1 with canonical := none }
      else some { fs1 with canonical := none }
    | _, _ => none
  else some fs

/-- `shutil.move(outputfiles_basename, temporary_outputfiles_basename)`
in `_setup_run_directory`.  The setter has always removed the canonical
entry by this point, so the branch is unreachable; an existing
destination would nest the source inside it, a state outside this
two-path model, hence `none`. -/
def shutilMoveCanonicalToTemp {α : Type} (fs : FS α) : Option (FS α) :=
  match fs.canonical, fs.temp with
  | some (CEntry.dir c), none => some ⟨none, some c⟩
  | _, _ => none

/-- `os.symlink(temp, canonical)`: fails (`FileExistsError`) when the
canonical path already holds any entry, a dangling link included. -/
def symlinkTempAtCanonical {α : Type} (fs : FS α) : Option (FS α) :=
  match fs.canonical with
  | none => some { fs with canonical := some CEntry.linkToTemp }
  | some _ => none

/-- `Pymultinest._setup_run_directory`, temporary-directory branch.
`tempfile.TemporaryDirectory().name` yields a fresh path whose directory
is removed as soon as the unreferenced object is collected, so the
temporary path starts empty; `e0` is the contents of a newly created
empty directory for `check_directory_exists_and_if_not_mkdir`. -/
def setup_run_directory {α : Type} (e0 : α) (c : Option (CEntry α)) : Option (FS α) :=
  let fs0 : FS α := ⟨c, none⟩
  match set_temporary_outputfiles_basename fs0 with
  | none => none
  | some fs1 =>
    match (if fs1.existsCanonical then shutilMoveCanonicalToTemp fs1 else some fs1) with
    | none => none
    | some fs2 =>
      let fs3 := if fs2.temp.isSome then fs2 else { fs2 with temp := some e0 }
      symlinkTempAtCanonical fs3

/-- `Pymultinest._move_temporary_directory_to_proper_path`: unlink the
canonical entry if it is a link, remove it recursively if it is a
directory, then `shutil.move` the temporary directory to the canonical
path (a plain rename, the destination being absent; a missing source
raises — `none`). -/
def move_temporary_directory_to_proper_path {α : Type} (fs : FS α) : Option (FS α) :=
  let fs1 :=
    if fs.islinkCanonical then { fs with canonical := none }
    else if fs.isdirCanonical then { fs with canonical := none }
    else fs
  match fs1.temp with
  | some c => some ⟨some (CEntry.dir c), none⟩
  | none => none

/-!
Signal handling and configuration of `Pymultinest`.
-/

/-- The configuration state of a `Pymultinest` instance that the signal
handler reads. -/
structure PmnConfig where
  exit_code : ℕ
  use_temporary_directory : Bool
  deriving DecidableEq

/-- `len([key for key in os.environ if "MPI" in key])`, as a boolean:
whether any environment variable name contains the substring MPI. -/
def usingMpi (env : List String) : Bool :=
  0 < (env.filter (fun k => 1 < (k.splitOn "MPI").length)).length

/-- `Pymultinest.__init__` restricted to the fields the claims concern:
the exit code (default 77) and the temporary-directory flag, disabled
when an MPI environment is detected. -/
def Pymultinest.init (temporary_directory : Bool) (env : List String)
    (exit_code : ℕ := 77) : PmnConfig :=
  { exit_code := exit_code
  , use_temporary_directory := temporary_directory && !(usingMpi env) }

/-- `Pymultinest.write_current_state_and_exit`: when the
temporary-directory protocol is in use, move the temporary directory
back to the canonical path, then `os._exit(self.exit_code)`; otherwise
exit directly.  The result pairs the final filesystem with the process
exit code; `none` models the move raising, in which case `os._exit` is
never reached. -/
def write_current_state_and_exit {α : Type} (s : PmnConfig) (fs : FS α) :
    Option (FS α × ℕ) :=
  if s.use_temporary_directory then
    (move_temporary_directory_to_proper_path fs).map (fun fs2 => (fs2, s.exit_code))
  else some (fs, s.exit_code)

/-- The three POSIX signals for which `__init__` installs a handler. -/
inductive Sig where
  | sigterm
  | sigint
  | sigalrm
  deriving DecidableEq

/-- The handler table installed by `__init__`:
`signal.signal(s, self.write_current_state_and_exit)` for each of
SIGTERM, SIGINT and SIGALRM — the same bound method for all three. -/
def installed_handlers (α : Type) (s : PmnConfig) :
    Sig → (FS α → Option (FS α × ℕ)) :=
  fun _ => write_current_state_and_exit s

/-!
Kwargs translation and periodic boundaries.

Python dictionaries are association lists with unique keys, in
insertion order.
-/

/-- `key in d` for a Python dictionary. -/
def dmem {V : Type} (k : String) : List (String × V) → Bool
  | [] => false
  | p :: t => (p.1 == k) || dmem k t

/-- `d[key]` lookup, as an option (first matching entry; a Python
dictionary holds at most one). -/
def dget {V : Type} (k : String) : List (String × V) → Option V
  | [] => none
  | p :: t => if p.1 == k then some p.2 else dget k t

/-- The mapping after `d.pop(key)`: every entry with that key removed (a
Python dictionary holds at most one). -/
def dpop {V : Type} (k : String) (d : List (String × V)) : List (String × V) :=
  d.filter (fun p => p.1 != k)

/-- `d[key] = v`: replace the value in place when the key is present,
append otherwise. -/
def dset {V : Type} (k : String) (v : V) (d : List (String × V)) :
    List (String × V) :=
  if dmem k d then d.map (fun p => if p.1 == k then (k, v) else p)
  else d ++ [(k, v)]

/-- The number of entries of the mapping holding key `k` (one for a
well-formed dictionary containing `k`). -/
def dcount {V : Type} (k : String) : List (String × V) → ℕ
  | [] => 0
  | p :: t => (if p.1 == k then 1 else 0) + dcount k t

/-- Modelled from the spec: `NestedSampler.npoints_equiv_kwargs` is not
part of this excerpt; per the spec and the class docstring, the number
of live points "can also equivalently be given as one of
[nlive, nlives, n_live_points]" under the name npoints, so the accepted
alias keys for the canonical option are these. -/
def npoints_equiv_kwargs : List String := ["npoints", "nlive", "nlives"]

/-- One iteration of the alias loop of `Pymultinest._translate_kwargs`:
`if equiv in kwargs: kwargs["n_live_points"] = kwargs.pop(equiv)`. -/
def translate_step {V : Type} (d : List (String × V)) (equiv : String) :
    List (String × V) :=
  match dget equiv d with
  | some v => dset "n_live_points" v (dpop equiv d)
  | none => d

/-- `Pymultinest._translate_kwargs`: when the canonical key is absent,
fold the alias loop over the accepted alias keys; otherwise the mapping
is left untouched. -/
def translate_kwargs {V : Type} (d : List (String × V)) : List (String × V) :=
  if dmem "n_live_points" d then d
  else npoints_equiv_kwargs.foldl translate_step d

/-- A prior dimension, holding the attribute the boundary loop reads. -/
structure Prior where
  boundary : Option String
  deriving DecidableEq

/-- `Pymultinest._apply_multinest_boundaries`: when no `wrapped_params`
option was supplied (`None`), build the list by appending, for each
prior in iteration order, `1` when its boundary equals periodic and `0`
otherwise; a supplied list is kept as is. -/
def apply_multinest_boundaries (wrapped_params : Option (List ℕ))
    (priors : List (String × Prior)) : List ℕ :=
  match wrapped_params with
  | none =>
    priors.foldl
      (fun acc pv => acc ++ [if pv.2.boundary = some "periodic" then 1 else 0]) []
  | some l => l

/-!
Helper lemmas.
-/

theorem list_sum_re (l : List ℂ) : l.sum.re = (l.map Complex.re).sum := by
  induction l with
  | nil => simp
  | cons a t ih => simp [ih]

theorem base_foldl {n : ℕ} (l : List (Interferometer n)) (a : ℝ) (st : EvalState n) :
    l.foldl Likelihood.stepAdd (a, st) =
      (a + (l.map (fun ifo =>
        (Likelihood.log_likelihood_interferometer st ifo).1)).sum, st) := by
  induction l generalizing a with
  | nil => simp
  | cons ifo t ih =>
      simp only [List.foldl_cons, List.map_cons, List.sum_cons]
      rw [show Likelihood.stepAdd (a, st) ifo =
        (a + (Likelihood.log_likelihood_interferometer st ifo).1, st) from rfl]
      rw [ih, add_assoc]

theorem scaleDict_nil {n : ℕ} (src : Source n) (wp : List (String × Vec n)) :
    LikelihoodB.scaleDict src [] wp = wp := by
  induction wp with
  | nil => rfl
  | cons mp t ih =>
      simp only [LikelihoodB.scaleDict, List.map_cons] at ih ⊢
      rw [ih]
      simp [LikelihoodB.responseProduct]

theorem scaleDict_cons {n : ℕ} (src : Source n) (ifo : Interferometer n)
    (t : List (Interferometer n)) (wp : List (String × Vec n)) :
    LikelihoodB.scaleDict src t (LikelihoodB.apply_responses src ifo wp) =
      LikelihoodB.scaleDict src (ifo :: t) wp := by
  simp only [LikelihoodB.scaleDict, LikelihoodB.apply_responses, List.map_map]
  apply List.map_congr_left
  intro mp _
  simp only [Function.comp]
  refine congrArg (Prod.mk mp.1) ?_
  funext i
  simp only [LikelihoodB.responseProduct, List.map_cons, List.prod_cons]
  ring

theorem b_foldl_state {n : ℕ} (l : List (Interferometer n)) (a : ℝ) (st : EvalState n) :
    (l.foldl LikelihoodB.step (a, st)).2 =
      { st with waveform_polarizations :=
          LikelihoodB.scaleDict st.source l st.waveform_polarizations } := by
  induction l generalizing a st with
  | nil =>
      rw [scaleDict_nil]
      rfl
  | cons ifo t ih =>
      simp only [List.foldl_cons]
      rw [show LikelihoodB.step (a, st) ifo =
        ((LikelihoodB.step (a, st) ifo).1,
          { st with waveform_polarizations :=
            LikelihoodB.apply_responses st.source ifo st.waveform_polarizations }) from rfl]
      rw [ih]
      simp only []
      rw [scaleDict_cons]

theorem dpop_cons {V : Type} (k : String) (p : String × V) (t : List (String × V)) :
    dpop k (p :: t) = if (p.1 == k) then dpop k t else p :: dpop k t := by
  by_cases h : (p.1 == k) = true
  · have hb : (p.1 != k) = false := by simp [bne, h]
    simp [dpop, List.filter_cons, hb, h]
  · have hb : (p.1 != k) = true := by simp [bne, h]
    simp [dpop, List.filter_cons, hb, h]

theorem set_entry_fst {V : Type} (k b : String) (v : V) (p : String × V) :
    ((if p.1 == k then (k, v) else p).1 == b) = (p.1 == b) := by
  by_cases h : (p.1 == k) = true
  · have hp : p.1 = k := by simpa using h
    rw [if_pos h, hp]
  · rw [if_neg h]

theorem dmem_dpop_self {V : Type} (k : String) (d : List (String × V)) :
    dmem k (dpop k d) = false := by
  induction d with
  | nil => rfl
  | cons p t ih =>
      rw [dpop_cons]
      by_cases h : (p.1 == k) = true
      · rw [if_pos h]
        exact ih
      · rw [if_neg h]
        simp only [dmem, ih]
        simp [h]

theorem dmem_dpop_ne {V : Type} {a k : String} (h : a ≠ k) (d : List (String × V)) :
    dmem a (dpop k d) = dmem a d := by
  induction d with
  | nil => rfl
  | cons p t ih =>
      rw [dpop_cons]
      by_cases hpk : (p.1 == k) = true
      · have hp : p.1 = k := by simpa using hpk
        have hpa : (p.1 == a) = false := by
          simp [hp, Ne.symm h]
        rw [if_pos hpk, ih]
        simp only [dmem, hpa, Bool.false_or]
      · rw [if_neg hpk]
        simp only [dmem, ih]

theorem dmem_map_set {V : Type} (b k : String) (v : V) (d : List (String × V)) :
    dmem b (d.map (fun p => if p.1 == k then (k, v) else p)) = dmem b d := by
  induction d with
  | nil => rfl
  | cons p t ih =>
      simp only [List.map_cons, dmem, ih, set_entry_fst]

theorem dmem_append {V : Type} (a : String) (d1 d2 : List (String × V)) :
    dmem a (d1 ++ d2) = (dmem a d1 || dmem a d2) := by
  induction d1 with
  | nil => simp [dmem]
  | cons p t ih => simp [dmem, ih, Bool.or_assoc]

theorem dmem_dset_self {V : Type} (k : String) (v : V) (d : List (String × V)) :
    dmem k (dset k v d) = true := by
  unfold dset
  by_cases hm : dmem k d
  · rw [if_pos hm, dmem_map_set]
    exact hm
  · rw [if_neg hm, dmem_append]
    simp [dmem]

theorem dmem_dset_ne {V : Type} {a k : String} (h : a ≠ k) (v : V) (d : List (String × V)) :
    dmem a (dset k v d) = dmem a d := by
  unfold dset
  by_cases hm : dmem k d
  · rw [if_pos hm, dmem_map_set]
  · rw [if_neg hm, dmem_append]
    simp [dmem, Ne.symm h]

theorem dget_none_of_not_dmem {V : Type} {k : String} {d : List (String × V)}
    (h : dmem k d = false) : dget k d = none := by
  induction d with
  | nil => rfl
  | cons p t ih =>
      simp only [dmem, Bool.or_eq_false_iff] at h
      simp only [dget, h.1, Bool.false_eq_true, if_false]
      exact ih h.2

theorem dmem_of_dget_some {V : Type} {k : String} {d : List (String × V)} {v : V}
    (h : dget k d = some v) : dmem k d = true := by
  induction d with
  | nil => exact absurd h (by simp [dget])
  | cons p t ih =>
      by_cases hpk : (p.1 == k) = true
      · simp [dmem, hpk]
      · simp only [dget, hpk, Bool.false_eq_true, if_false] at h
        simp [dmem, hpk, ih h]

theorem dget_some_of_dmem {V : Type} {k : String} {d : List (String × V)}
    (h : dmem k d = true) : ∃ v, dget k d = some v := by
  induction d with
  | nil => simp [dmem] at h
  | cons p t ih =>
      by_cases hpk : (p.1 == k) = true
      · exact ⟨p.2, by simp [dget, hpk]⟩
      · simp only [dmem, hpk, Bool.false_or] at h
        obtain ⟨v, hv⟩ := ih h
        exact ⟨v, by simp [dget, hpk, hv]⟩

theorem dcount_dpop_ne {V : Type} {a k : String} (h : a ≠ k) (d : List (String × V)) :
    dcount a (dpop k d) = dcount a d := by
  induction d with
  | nil => rfl
  | cons p t ih =>
      rw [dpop_cons]
      by_cases hpk : (p.1 == k) = true
      · have hp : p.1 = k := by simpa using hpk
        have hpa : (p.1 == a) = false := by
          simp [hp, Ne.symm h]
        rw [if_pos hpk, ih]
        simp only [dcount, hpa, Bool.false_eq_true, if_false, Nat.zero_add]
      · rw [if_neg hpk]
        simp only [dcount, ih]

theorem dcount_map_set {V : Type} (k : String) (v : V) (d : List (String × V)) :
    dcount k (d.map (fun p => if p.1 == k then (k, v) else p)) = dcount k d := by
  induction d with
  | nil => rfl
  | cons p t ih =>
      simp only [List.map_cons, dcount, ih, set_entry_fst]

theorem dcount_append {V : Type} (k : String) (d1 d2 : List (String × V)) :
    dcount k (d1 ++ d2) = dcount k d1 + dcount k d2 := by
  induction d1 with
  | nil => simp [dcount]
  | cons p t ih => simp [dcount, ih, Nat.add_assoc]

theorem dcount_dset_self {V : Type} (k : String) (v : V) (d : List (String × V)) :
    dcount k (dset k v d) = if dmem k d then dcount k d else dcount k d + 1 := by
  unfold dset
  by_cases hm : dmem k d
  · rw [if_pos hm, if_pos hm, dcount_map_set]
  · rw [if_neg hm, if_neg hm, dcount_append]
    simp [dcount]

theorem dcount_eq_zero_of_not_dmem {V : Type} {k : String} {d : List (String × V)}
    (h : dmem k d = false) : dcount k d = 0 := by
  induction d with
  | nil => rfl
  | cons p t ih =>
      simp only [dmem, Bool.or_eq_false_iff] at h
      simp only [dcount, h.1, Bool.false_eq_true, if_false, Nat.zero_add]
      exact ih h.2

theorem translate_step_canon {V : Type} {equiv : String}
    (_heq : equiv ≠ "n_live_points") (d : List (String × V)) :
    dmem "n_live_points" (translate_step d equiv) =
      (dmem equiv d || dmem "n_live_points" d) := by
  unfold translate_step
  cases hg : dget equiv d with
  | none =>
      have hm : dmem equiv d = false := by
        by_cases h : dmem equiv d = true
        · obtain ⟨v, hv⟩ := dget_some_of_dmem h
          rw [hv] at hg
          exact absurd hg (by simp)
        · simpa using h
      rw [hm, Bool.false_or]
  | some v =>
      rw [dmem_dset_self, dmem_of_dget_some hg, Bool.true_or]

theorem translate_step_other {V : Type} {a equiv : String}
    (h1 : a ≠ equiv) (h2 : a ≠ "n_live_points") (d : List (String × V)) :
    dmem a (translate_step d equiv) = dmem a d := by
  unfold translate_step
  cases hg : dget equiv d with
  | none => rfl
  | some v => rw [dmem_dset_ne h2, dmem_dpop_ne h1]

theorem translate_step_self {V : Type} {equiv : String}
    (heq : equiv ≠ "n_live_points") (d : List (String × V)) :
    dmem equiv (translate_step d equiv) = false := by
  unfold translate_step
  cases hg : dget equiv d with
  | none =>
      by_cases h : dmem equiv d = true
      · obtain ⟨v, hv⟩ := dget_some_of_dmem h
        rw [hv] at hg
        exact absurd hg (by simp)
      · simpa using h
  | some v => rw [dmem_dset_ne heq, dmem_dpop_self]

theorem translate_step_count {V : Type} {equiv : String}
    (heq : equiv ≠ "n_live_points") (d : List (String × V)) :
    dcount "n_live_points" (translate_step d equiv) =
      if dmem equiv d then
        (if dmem "n_live_points" d then dcount "n_live_points" d
          else dcount "n_live_points" d + 1)
      else dcount "n_live_points" d := by
  unfold translate_step
  cases hg : dget equiv d with
  | none =>
      have hm : dmem equiv d = false := by
        by_cases h : dmem equiv d = true
        · obtain ⟨v, hv⟩ := dget_some_of_dmem h
          rw [hv] at hg
          exact absurd hg (by simp)
        · simpa using h
      rw [hm]
      simp
  | some v =>
      rw [dmem_of_dget_some hg, if_pos rfl, dcount_dset_self,
        dmem_dpop_ne (Ne.symm heq), dcount_dpop_ne (Ne.symm heq)]

theorem foldl_append_map {β : Type} (f : β → ℕ) (l : List β) (acc : List ℕ) :
    l.foldl (fun a x => a ++ [f x]) acc = acc ++ l.map f := by
  induction l generalizing acc with
  | nil => simp
  | cons x t ih => simp [ih]

/-!
Claim theorems.
-/

/-- Claim C1: for every list of interferometers and every source model,
the base evaluator's `log_likelihood()` returns the real part of the
sum, over all interferometers, of `-4/T` times
`vdot(d - s, (d - s)/PSD)`, where `d` is the interferometer's data
array, `s` its projected signal, `PSD` its power-spectral-density array,
and `T` the source's time duration. -/
theorem claim_C1_base_log_likelihood {n : ℕ} (src : Source n)
    (ifos : List (Interferometer n)) :
    Likelihood.log_likelihood src ifos =
      ((ifos.map (fun ifo =>
        (((- 4 / src.time_duration : ℝ)) : ℂ) *
          npvdot
            (fun i => ifo.data i -
              Likelihood.get_interferometer_signal src src.frequency_domain_strain ifo i)
            (fun i => (ifo.data i -
                Likelihood.get_interferometer_signal src src.frequency_domain_strain ifo i) /
              ((ifo.power_spectral_density_array i : ℝ) : ℂ)))).sum).re := by
  unfold Likelihood.log_likelihood Likelihood.log_likelihood_run
  rw [base_foldl]
  simp only [list_sum_re, List.map_map, zero_add]
  rfl

/-- Claim C2: for every interferometer and every polarization mapping,
the base evaluator's projected signal equals the sum over modes of the
mode array times the antenna response (at the source's right ascension,
declination, geocentric time and polarization angle, for that mode),
multiplied element-wise by `exp(-i*2*pi*dt*f)` with `dt` the geocenter
time delay and `f` ranging over the source's frequency array, so the
phase factor varies per frequency bin. -/
theorem claim_C2_projected_signal {n : ℕ} (src : Source n)
    (wp : List (String × Vec n)) (ifo : Interferometer n) :
    Likelihood.get_interferometer_signal src wp ifo = fun i =>
      (wp.map (fun mp =>
        mp.2 i *
          ((ifo.antenna_response src.ra src.dec src.geocent_time src.psi mp.1 : ℝ) : ℂ))).sum *
      Complex.exp (-Complex.I * 2 * (Real.pi : ℂ) *
        ((ifo.time_delay_from_geocenter src.ra src.dec src.geocent_time : ℝ) : ℂ) *
        ((src.frequency_array i : ℝ) : ℂ)) := by
  funext i
  simp only [Likelihood.get_interferometer_signal, npsum, List.map_map]
  rfl

/-- Claim C3: starting from any filesystem state in which the canonical
output directory exists (as a real directory with contents `x`), the
temporary-directory setup followed by the move-back step leaves the
canonical path as a real directory with contents identical to before,
with no symbolic link and no temporary directory remaining. -/
theorem claim_C3_directory_roundtrip (α : Type) (x e0 : α) :
    (setup_run_directory e0 (some (CEntry.dir x))).bind
        move_temporary_directory_to_proper_path =
      some ⟨some (CEntry.dir x), none⟩ := rfl

/-- Claim C4: each of the three signals (termination, interrupt, alarm)
is bound to `write_current_state_and_exit`, which performs the
move-temporary-back-to-canonical step synchronously when the
temporary-directory protocol is in use, performs no move when it is not,
and then terminates the process with the configured exit code, whose
default is 77. -/
theorem claim_C4_signal_handlers (α : Type) (s : PmnConfig) (fs : FS α)
    (ec : ℕ) (g : Sig) (td : Bool) (env : List String) :
    (installed_handlers α s g = write_current_state_and_exit s)
      ∧ (write_current_state_and_exit (PmnConfig.mk ec true) fs =
          (move_temporary_directory_to_proper_path fs).map (fun fs2 => (fs2, ec)))
      ∧ (write_current_state_and_exit (PmnConfig.mk ec false) fs = some (fs, ec))
      ∧ ((Pymultinest.init td env).exit_code = 77)
      ∧ (∀ code : ℕ, (Pymultinest.init td env code).exit_code = code) :=
  ⟨rfl, rfl, rfl, rfl, fun _ => rfl⟩

/-- Claim C5 counterexample: the claim fails as stated.  For the mapping
holding both the canonical key and the alias key nlive, the kwargs
translation returns the mapping unchanged, so the alias key remains. -/
theorem claim_C5_counterexample :
    (translate_kwargs [("n_live_points", (1 : ℕ)), ("nlive", 2)] =
        [("n_live_points", (1 : ℕ)), ("nlive", 2)])
      ∧ dmem "nlive"
          (translate_kwargs [("n_live_points", (1 : ℕ)), ("nlive", 2)]) = true := by
  constructor <;> decide

/-- Claim C5 (amended): when the canonical key is absent, after kwargs
translation the canonical key is present exactly when some alias key
was, exactly one canonical entry is set in that case, and no alias key
remains; when the canonical key is already present the mapping is
returned unchanged, so alias keys may remain. -/
theorem claim_C5_translate_amended (V : Type) (d : List (String × V)) :
    (dmem "n_live_points" d = false →
        (dmem "n_live_points" (translate_kwargs d) =
          (dmem "npoints" d || dmem "nlive" d || dmem "nlives" d))
      ∧ (∀ a, a ∈ npoints_equiv_kwargs → dmem a (translate_kwargs d) = false)
      ∧ dcount "n_live_points" (translate_kwargs d) =
          (if (dmem "npoints" d || dmem "nlive" d || dmem "nlives" d) then 1 else 0))
    ∧ (dmem "n_live_points" d = true → translate_kwargs d = d) := by
  constructor
  · intro hmem
    have htr : translate_kwargs d =
        translate_step (translate_step (translate_step d "npoints") "nlive") "nlives" := by
      unfold translate_kwargs
      rw [if_neg (by simp [hmem])]
      rfl
    have hd1 : ("npoints" : String) ≠ "n_live_points" := by decide
    have hd2 : ("nlive" : String) ≠ "n_live_points" := by decide
    have hd3 : ("nlives" : String) ≠ "n_live_points" := by decide
    have hd12 : ("npoints" : String) ≠ "nlive" := by decide
    have hd13 : ("npoints" : String) ≠ "nlives" := by decide
    have hd23 : ("nlive" : String) ≠ "nlives" := by decide
    set d1 := translate_step d "npoints" with hD1
    set d2 := translate_step d1 "nlive" with hD2
    set d3 := translate_step d2 "nlives" with hD3
    have m1 : dmem "n_live_points" d1 = dmem "npoints" d := by
      rw [hD1, translate_step_canon hd1, hmem, Bool.or_false]
    have a2_1 : dmem "nlive" d1 = dmem "nlive" d :=
      translate_step_other (Ne.symm hd12) hd2 d
    have a3_1 : dmem "nlives" d1 = dmem "nlives" d :=
      translate_step_other (Ne.symm hd13) hd3 d
    have m2 : dmem "n_live_points" d2 = (dmem "npoints" d || dmem "nlive" d) := by
      rw [hD2, translate_step_canon hd2, m1, a2_1, Bool.or_comm]
    have a3_2 : dmem "nlives" d2 = dmem "nlives" d := by
      rw [hD2, translate_step_other (Ne.symm hd23) hd3 d1, a3_1]
    have m3 : dmem "n_live_points" d3 =
        (dmem "npoints" d || dmem "nlive" d || dmem "nlives" d) := by
      rw [hD3, translate_step_canon hd3, m2, a3_2, Bool.or_comm]
    refine ⟨by rw [htr]; exact m3, ?_, ?_⟩
    · intro a ha
      rw [htr]
      simp only [npoints_equiv_kwargs, List.mem_cons, List.not_mem_nil, or_false] at ha
      rcases ha with rfl | rfl | rfl
      · rw [hD3, translate_step_other hd13 hd1 d2,
          hD2, translate_step_other hd12 hd1 d1,
          hD1, translate_step_self hd1 d]
      · rw [hD3, translate_step_other hd23 hd2 d2,
          hD2, translate_step_self hd2 d1]
      · rw [hD3, translate_step_self hd3 d2]
    · have c0 : dcount "n_live_points" d = 0 := dcount_eq_zero_of_not_dmem hmem
      have c1 : dcount "n_live_points" d1 =
          (if dmem "npoints" d then 1 else 0) := by
        rw [hD1, translate_step_count hd1, hmem, c0]
        cases h : dmem "npoints" d <;> simp
      have c2 : dcount "n_live_points" d2 =
          (if (dmem "npoints" d || dmem "nlive" d) then 1 else 0) := by
        rw [hD2, translate_step_count hd2, a2_1, m1, c1]
        cases hA : dmem "npoints" d <;> cases hB : dmem "nlive" d <;> simp
      have c3 : dcount "n_live_points" d3 =
          (if (dmem "npoints" d || dmem "nlive" d || dmem "nlives" d) then 1 else 0) := by
        rw [hD3, translate_step_count hd3, a3_2, m2, c2]
        cases hA : dmem "npoints" d <;> cases hB : dmem "nlive" d <;>
          cases hC : dmem "nlives" d <;> simp
      rw [htr]
      exact c3
  · intro hmem
    unfold translate_kwargs
    rw [if_pos hmem]

/-- Witness for C5 (amended), at the mapping holding only the alias
nlive (first branch) and at the mapping holding only the canonical key
(second branch). -/
theorem claim_C5_translate_amended_witness :
    ((dmem "n_live_points" (translate_kwargs [("nlive", (2 : ℕ))]) =
        (dmem "npoints" [("nlive", (2 : ℕ))] || dmem "nlive" [("nlive", (2 : ℕ))] ||
          dmem "nlives" [("nlive", (2 : ℕ))]))
      ∧ (∀ a, a ∈ npoints_equiv_kwargs →
          dmem a (translate_kwargs [("nlive", (2 : ℕ))]) = false)
      ∧ dcount "n_live_points" (translate_kwargs [("nlive", (2 : ℕ))]) =
          (if (dmem "npoints" [("nlive", (2 : ℕ))] || dmem "nlive" [("nlive", (2 : ℕ))] ||
              dmem "nlives" [("nlive", (2 : ℕ))]) then 1 else 0))
    ∧ translate_kwargs [("n_live_points", (5 : ℕ))] = [("n_live_points", (5 : ℕ))] :=
  ⟨(claim_C5_translate_amended ℕ [("nlive", (2 : ℕ))]).1 (by decide),
    (claim_C5_translate_amended ℕ [("n_live_points", (5 : ℕ))]).2 (by decide)⟩

/-- Claim C6: for every priors mapping, when no wrapped_params option
was supplied, the derived list has one entry per prior dimension in the
priors' iteration order, and the entry is 1 exactly when that
dimension's boundary condition equals periodic and 0 otherwise. -/
theorem claim_C6_wrapped_params (priors : List (String × Prior)) :
    (apply_multinest_boundaries none priors =
        priors.map (fun pv => if pv.2.boundary = some "periodic" then 1 else 0))
      ∧ (apply_multinest_boundaries none priors).length = priors.length
      ∧ (∀ i : ℕ, (apply_multinest_boundaries none priors)[i]? =
          priors[i]?.map (fun pv =>
            if pv.2.boundary = some "periodic" then 1 else 0)) := by
  have h : apply_multinest_boundaries none priors =
      priors.map (fun pv => if pv.2.boundary = some "periodic" then 1 else 0) := by
    unfold apply_multinest_boundaries
    rw [foldl_append_map]
    simp
  refine ⟨h, ?_, fun i => ?_⟩
  · rw [h, List.length_map]
  · rw [h, List.getElem?_map]

/-- Claim C7: the `LikelihoodB` evaluator whitens each interferometer's
stored data exactly once, at construction; and on every call its
`log_likelihood()` divides the projected signal for each interferometer
by that interferometer's amplitude-spectral-density array and scales
each interferometer's contribution by 4 times the source's sampling
frequency. -/
theorem claim_C7_whiten_once_asd_sampling {n : ℕ} (W : Vec n → Vec n)
    (ifos : List (Interferometer n)) :
    ((LikelihoodB.init W ifos).map (fun x => x.whiten_count) =
        ifos.map (fun x => x.whiten_count + 1))
      ∧ ((LikelihoodB.init W ifos).map (fun x => x.whitened_data) =
          ifos.map (fun x => W x.data))
      ∧ (∀ (a : ℝ) (st : EvalState n) (ifo : Interferometer n),
          (LikelihoodB.step (a, st) ifo).1 =
            a - 4 * st.source.sampling_frequency *
              (∑ i, (ifo.whitened_data i -
                LikelihoodB.signal_ifo st.source ifo st.waveform_polarizations i /
                  ((ifo.amplitude_spectral_density_array i : ℝ) : ℂ)) ^ 2).re) := by
  refine ⟨?_, ?_, fun a st ifo => rfl⟩
  · simp [LikelihoodB.init, Interferometer.whiten_data]
  · simp [LikelihoodB.init, Interferometer.whiten_data]

/-- Claim C8: a call to the base evaluator's `log_likelihood()` mutates
no shared state: the final state equals the initial one — the source
model, the interferometer list (data and power-spectral-density arrays
included) and the polarization mapping obtained from the source model
are all unchanged. -/
theorem claim_C8_no_shared_mutation {n : ℕ} (src : Source n)
    (ifos : List (Interferometer n)) :
    (Likelihood.log_likelihood_run src ifos).2 =
      ⟨src, ifos, src.frequency_domain_strain⟩ := by
  unfold Likelihood.log_likelihood_run
  rw [base_foldl]

/-- Claim C9: in the `LikelihoodB` evaluator, the time-delay phase
factor applied to each interferometer's projected signal is the single
scalar `exp(-i*2*pi*dt)`, identical for every frequency bin — it is not
multiplied by the frequency array. -/
theorem claim_C9_scalar_phase {n : ℕ} (src : Source n) (ifo : Interferometer n)
    (wp : List (String × Vec n)) :
    (∀ i, LikelihoodB.signal_ifo src ifo wp i =
        npsum ((LikelihoodB.apply_responses src ifo wp).map Prod.snd) i *
          LikelihoodB.phase_factor src ifo)
      ∧ LikelihoodB.phase_factor src ifo =
          Complex.exp (-Complex.I * 2 * (Real.pi : ℂ) *
            ((ifo.time_delay_from_geocenter src.ra src.dec src.geocent_time : ℝ) : ℂ)) :=
  ⟨fun _ => rfl, rfl⟩

/-- Claim C10: `LikelihoodB.log_likelihood()` multiplies the entries of
the polarization mapping in place inside the per-interferometer loop:
after the call each mode's array has been scaled by the product of all
interferometers' responses, the mapping after the first `j`
interferometers is the original scaled by the product of their
responses, and the remaining interferometers are processed starting from
that already-scaled mapping. -/
theorem claim_C10_inplace_polarization_scaling {n : ℕ} (src : Source n)
    (ifos : List (Interferometer n)) :
    ((LikelihoodB.log_likelihood_run src ifos).2.waveform_polarizations =
        LikelihoodB.scaleDict src ifos src.frequency_domain_strain)
      ∧ (∀ j : ℕ,
          ((ifos.take j).foldl LikelihoodB.step
              (0, ⟨src, ifos, src.frequency_domain_strain⟩)).2.waveform_polarizations =
            LikelihoodB.scaleDict src (ifos.take j) src.frequency_domain_strain)
      ∧ (∀ j : ℕ,
          LikelihoodB.log_likelihood_run src ifos =
            (ifos.drop j).foldl LikelihoodB.step
              ((ifos.take j).foldl LikelihoodB.step
                (0, ⟨src, ifos, src.frequency_domain_strain⟩))) := by
  refine ⟨?_, fun j => ?_, fun j => ?_⟩
  · unfold LikelihoodB.log_likelihood_run
    rw [b_foldl_state]
  · rw [b_foldl_state]
  · unfold LikelihoodB.log_likelihood_run
    have h : ∀ b : ℝ × EvalState n,
        ifos.foldl LikelihoodB.step b =
          (ifos.drop j).foldl LikelihoodB.step
            ((ifos.take j).foldl LikelihoodB.step b) := by
      intro b
      conv_lhs => rw [← List.take_append_drop j ifos]
      rw [List.foldl_append]
    exact h _

end Bilby
